import Mathlib

/-!
# Verification of the wasmi resource-management core

Shallow embedding of the table entity, constant pool and module builder
of the `wasmi` repository, together with theorems settling the spec's
claims about them.

Machine integers are modelled as `Nat` with explicit bounds:
`usize` arithmetic overflows at `2^64` (`usizeBound`), `u32` values are
bounded by `u32Max = 2^32 - 1`, and the reserved constant-reference
ceiling is `i32Max = 2^31 - 1`. Rust `Result` becomes `Except`,
`Option` stays `Option`, and a process-terminating assertion becomes a
function returning `Option` (with `none` for the fatal case).
-/

/-- `usize::MAX + 1` on a 64-bit platform: `checked_add` yields `None`
at or above this bound. -/
def usizeBound : Nat := 2 ^ 64

/-- `u32::MAX as usize`, the implicit table maximum when none is declared. -/
def u32Max : Nat := 2 ^ 32 - 1

/-- `i32::MAX as usize`, the reserved ceiling for constant references. -/
def i32Max : Nat := 2 ^ 31 - 1

/-- Rust `usize::checked_add`: the sum, unless it overflows the integer
range. -/
def checked_add (a b : Nat) : Option Nat :=
  if a + b < usizeBound then some (a + b) else none

/-- Modelled from the spec: a resizable-limits pair (initial length,
optional maximum length) fixed at entity creation; the concrete
`ResizableLimits` struct is outside the provided sources. -/
structure ResizableLimits where
  initial : Nat
  maximum : Option Nat
deriving DecidableEq

/-- Modelled from the spec: an opaque reference into the function arena;
the concrete `FuncRef` type is outside the provided sources and only its
identity matters to the table entity. -/
structure FuncRef where
  id : Nat
deriving DecidableEq

/-- Errors that may occur upon operating with table entities
(`TableError` in `module/v2/table.rs`). -/
inductive TableError where
  | GrowOutOfBounds (maximum current grow_by : Nat)
  | AccessOutOfBounds (current offset : Nat)
deriving DecidableEq

/-- A Wasm table entity (`TableEntity` in `module/v2/table.rs`):
resizable limits plus the vector of optional function references. -/
structure TableEntity where
  limits : ResizableLimits
  elements : List (Option FuncRef)
deriving DecidableEq

/-- `Vec::resize(new_len, value)`: truncate when shrinking, pad with
`value` when growing. -/
def listResize (l : List α) (n : Nat) (v : α) : List α :=
  if n ≤ l.length then l.take n else l ++ List.replicate (n - l.length) v

namespace TableEntity

/-- `TableEntity::new`: `limits.initial` slots, all `None`. -/
def new (limits : ResizableLimits) : TableEntity :=
  { elements := List.replicate limits.initial none, limits := limits }

/-- `TableEntity::len`: the current number of slots. -/
def len (t : TableEntity) : Nat :=
  t.elements.length

/-- The effective maximum used by `grow`:
`self.limits.maximum().unwrap_or(u32::MAX as usize)`. -/
def effectiveMaximum (l : ResizableLimits) : Nat :=
  l.maximum.getD u32Max

/-- `TableEntity::grow`: checked addition of `grow_by` to the current
length, filtered by the strict bound `new_len < maximum`; on success the
element vector is resized with `None` padding, otherwise
`GrowOutOfBounds` is returned and nothing is mutated. -/
def grow (t : TableEntity) (grow_by : Nat) : Except TableError TableEntity :=
  let maximum := effectiveMaximum t.limits
  let current := t.len
  match (checked_add current grow_by).filter (fun new_len => decide (new_len < maximum)) with
  | some new_len => .ok { t with elements := listResize t.elements new_len none }
  | none => .error (.GrowOutOfBounds maximum current grow_by)

/-- `TableEntity::get`: the element at `offset`, or `AccessOutOfBounds`
when `offset` is at or beyond the current length. -/
def get (t : TableEntity) (offset : Nat) : Except TableError (Option FuncRef) :=
  match t.elements[offset]? with
  | some element => .ok element
  | none => .error (.AccessOutOfBounds t.len offset)

/-- `TableEntity::set`: overwrite the slot at `offset` when it is in
bounds, otherwise `AccessOutOfBounds`. -/
def set (t : TableEntity) (offset : Nat) (new_value : Option FuncRef) :
    Except TableError TableEntity :=
  match t.elements[offset]? with
  | some _ => .ok { t with elements := t.elements.set offset new_value }
  | none => .error (.AccessOutOfBounds t.len offset)

end TableEntity

/-- An operation on a table entity, used to describe the reachable
states of a table: a failing operation leaves the entity as it was. -/
inductive TableOp where
  | grow (grow_by : Nat)
  | set (offset : Nat) (new_value : Option FuncRef)
  | get (offset : Nat)

/-- Apply one operation to a table entity; on failure the entity state
is unchanged (the source methods return the error before mutating). -/
def applyTableOp (t : TableEntity) (op : TableOp) : TableEntity :=
  match op with
  | .grow g =>
    match t.grow g with
    | .ok t' => t'
    | .error _ => t
  | .set o v =>
    match t.set o v with
    | .ok t' => t'
    | .error _ => t
  | .get _ => t

/-- Run a sequence of operations on a table entity. -/
def runTableOps (t : TableEntity) (ops : List TableOp) : TableEntity :=
  ops.foldl applyTableOp t

/-- Modelled from the spec: an untyped fixed-width constant value,
compared by exact bit pattern; the concrete `UntypedValue` of
`wasmi_core` is outside the provided sources. -/
structure UntypedValue where
  bits : Nat
deriving DecidableEq

/-- The index of a constant stored in the constant pool
(`ConstRef` in `engine2/const_pool.rs`), a `u32` wrapper. -/
structure ConstRef where
  val : Nat
deriving DecidableEq

namespace ConstRef

/-- `ConstRef::into_usize`: the wrapped position. -/
def into_usize (c : ConstRef) : Nat :=
  c.val

/-- `ConstRef::from_usize`: asserts `value < i32::MAX` (a fatal,
process-terminating check modelled as `none`), then wraps the value. -/
def from_usize (value : Nat) : Option ConstRef :=
  if value < i32Max then some ⟨value⟩ else none

end ConstRef

/-- First position of `v` in the list, if any: the lookup a
deduplicating arena performs before allocating. -/
def firstPos (v : UntypedValue) : List UntypedValue → Option Nat
  | [] => none
  | x :: xs => if x = v then some 0 else (firstPos v xs).map (· + 1)

/-- Modelled from the spec: a deduplicating arena over untyped constant
values — an append-only sequence addressed through `ConstRef` handles;
the concrete `DedupArena` is outside the provided sources. -/
structure DedupArena where
  values : List UntypedValue
deriving DecidableEq

namespace DedupArena

/-- Modelled from the spec: the number of stored values. -/
def len (a : DedupArena) : Nat :=
  a.values.length

/-- Modelled from the spec: `alloc` first checks whether an equal value
already has a handle and, if so, returns the existing handle without
insertion; otherwise it appends the value and returns the new handle.
Handles are minted through `ConstRef.from_usize`, whose fatal
out-of-range assertion is modelled as `none`. -/
def alloc (a : DedupArena) (v : UntypedValue) : Option (ConstRef × DedupArena) :=
  match firstPos v a.values with
  | some i => (ConstRef.from_usize i).map (fun c => (c, a))
  | none =>
    (ConstRef.from_usize a.values.length).map
      (fun c => (c, { values := a.values ++ [v] }))

/-- Modelled from the spec: `get` returns the stored value for a valid
handle, or nothing for a handle at or beyond the current length. -/
def get (a : DedupArena) (c : ConstRef) : Option UntypedValue :=
  a.values[c.into_usize]?

end DedupArena

/-- A constant pool that stores unique untyped constant values
(`ConstPool` in `engine2/const_pool.rs`). -/
structure ConstPool where
  values : DedupArena
deriving DecidableEq

namespace ConstPool

/-- `ConstPool::len`: the number of stored unique constants. -/
def len (p : ConstPool) : Nat :=
  p.values.len

/-- `ConstPool::is_empty`. -/
def is_empty (p : ConstPool) : Bool :=
  p.len == 0

/-- `ConstPool::alloc_const`: allocate a constant in the deduplicating
arena; the fatal handle-space exhaustion is modelled as `none`. -/
def alloc_const (p : ConstPool) (value : UntypedValue) :
    Option (ConstRef × ConstPool) :=
  (p.values.alloc value).map (fun r => (r.1, { values := r.2 }))

/-- `ConstPool::resolve`: the stored constant for the index, if any. -/
def resolve (p : ConstPool) (index : ConstRef) : Option UntypedValue :=
  p.values.get index

/-- Thread a sequence of further allocations through the pool,
dropping the returned handles. -/
def allocAll (p : ConstPool) : List UntypedValue → Option ConstPool
  | [] => some p
  | v :: vs =>
    match p.alloc_const v with
    | some r => r.2.allocAll vs
    | none => none

end ConstPool

/-- Modelled from the spec: a declared function-type signature,
treated as a black box by the module builder; the concrete `FuncType`
is outside the provided sources. -/
structure FuncType where
  id : Nat
deriving DecidableEq

/-- A builder for a WebAssembly module (`ModuleBuilder` in
`module2/builder.rs`): the accumulated function-type signatures. -/
structure ModuleBuilder where
  func_types : List FuncType
deriving DecidableEq

namespace ModuleBuilder

/-- `ModuleBuilder::default`: an empty builder. -/
def default : ModuleBuilder :=
  { func_types := [] }

/-- `ModuleBuilder::push_func_type`: returns the current count as a
`u32` and appends the signature; `u32::try_from` failure (count not
representable in 32 bits) is a fatal panic, modelled as `none`. -/
def push_func_type (b : ModuleBuilder) (func_type : FuncType) :
    Option (Nat × ModuleBuilder) :=
  if b.func_types.length ≤ u32Max then
    some (b.func_types.length, { func_types := b.func_types ++ [func_type] })
  else
    none

end ModuleBuilder

/-! ## Helper lemmas -/

theorem listResize_of_le (l : List α) (v : α) {n : Nat} (h : l.length ≤ n) :
    listResize l n v = l ++ List.replicate (n - l.length) v := by
  unfold listResize
  by_cases hle : n ≤ l.length
  · have hn : n = l.length := Nat.le_antisymm hle h
    simp [hn]
  · simp [hle]

/-- Characterization of `TableEntity.grow` as a conditional. -/
theorem grow_eq (t : TableEntity) (g : Nat) :
    t.grow g =
      if t.len + g < usizeBound ∧ t.len + g < TableEntity.effectiveMaximum t.limits
      then .ok { t with elements := t.elements ++ List.replicate g none }
      else .error (.GrowOutOfBounds (TableEntity.effectiveMaximum t.limits) t.len g) := by
  unfold TableEntity.grow checked_add
  by_cases h1 : t.len + g < usizeBound
  · by_cases h2 : t.len + g < TableEntity.effectiveMaximum t.limits
    · have hres : listResize t.elements (t.len + g) none =
          t.elements ++ List.replicate g none := by
        have hl : t.len = t.elements.length := rfl
        rw [hl, listResize_of_le t.elements none (Nat.le_add_right _ _)]
        congr 1
        congr 1
        exact Nat.add_sub_cancel_left _ _
      simp [h1, h2, Option.filter, hres]
    · simp [h1, h2, Option.filter]
  · simp [h1]

theorem getElem?_lt {α : Type _} {l : List α} {i : Nat} {x : α}
    (h : l[i]? = some x) : i < l.length := by
  by_contra hc
  rw [List.getElem?_eq_none (Nat.le_of_not_lt hc)] at h
  exact Option.noConfusion h

theorem firstPos_some {v : UntypedValue} {l : List UntypedValue} {i : Nat}
    (h : firstPos v l = some i) : l[i]? = some v := by
  induction l generalizing i with
  | nil => simp [firstPos] at h
  | cons x xs ih =>
    by_cases hx : x = v
    · simp [firstPos, hx] at h
      subst h
      simp [hx]
    · simp only [firstPos, hx, if_false, ite_false] at h
      cases hj : firstPos v xs with
      | none => rw [hj] at h; exact Option.noConfusion h
      | some j =>
        rw [hj] at h
        simp only [Option.map_some', Option.some.injEq] at h
        subst h
        simpa using ih hj

theorem firstPos_append_left {v : UntypedValue} {l : List UntypedValue} {i : Nat}
    (h : firstPos v l = some i) (l2 : List UntypedValue) :
    firstPos v (l ++ l2) = some i := by
  induction l generalizing i with
  | nil => simp [firstPos] at h
  | cons x xs ih =>
    by_cases hx : x = v
    · simp only [firstPos, hx, if_true, ite_true] at h ⊢
      simpa using h
    · simp only [List.cons_append, firstPos, List.append_eq, hx, if_false, ite_false] at h ⊢
      cases hj : firstPos v xs with
      | none => rw [hj] at h; exact Option.noConfusion h
      | some j =>
        rw [hj] at h
        rw [ih hj]
        exact h

theorem firstPos_append_self {v : UntypedValue} {l : List UntypedValue}
    (h : firstPos v l = none) : firstPos v (l ++ [v]) = some l.length := by
  induction l with
  | nil => simp [firstPos]
  | cons x xs ih =>
    by_cases hx : x = v
    · simp [firstPos, hx] at h
    · simp only [List.cons_append, firstPos, List.append_eq, hx, if_false, ite_false] at h ⊢
      cases hj : firstPos v xs with
      | none => rw [ih hj]; simp
      | some j => rw [hj] at h; exact Option.noConfusion h

theorem alloc_some {a : DedupArena} {v : UntypedValue} {c : ConstRef} {a' : DedupArena}
    (h : a.alloc v = some (c, a')) :
    c.val < i32Max ∧ firstPos v a'.values = some c.val ∧
      a'.values[c.val]? = some v ∧
      (a'.values = a.values ∨ a'.values = a.values ++ [v]) := by
  unfold DedupArena.alloc ConstRef.from_usize at h
  split at h
  · rename_i i hf
    split at h
    · rename_i hi
      simp only [Option.map_some', Option.some.injEq, Prod.mk.injEq] at h
      obtain ⟨rfl, rfl⟩ := h
      exact ⟨hi, hf, firstPos_some hf, Or.inl rfl⟩
    · exact Option.noConfusion h
  · rename_i hf
    split at h
    · rename_i hi
      simp only [Option.map_some', Option.some.injEq, Prod.mk.injEq] at h
      obtain ⟨rfl, rfl⟩ := h
      exact ⟨hi, firstPos_append_self hf, List.getElem?_concat_length a.values v,
        Or.inr rfl⟩
    · exact Option.noConfusion h

theorem alloc_idem {a a' : DedupArena} {v : UntypedValue} {c : ConstRef}
    (h : a.alloc v = some (c, a')) : a'.alloc v = some (c, a') := by
  obtain ⟨hi, hf, -, -⟩ := alloc_some h
  unfold DedupArena.alloc ConstRef.from_usize
  rw [hf]
  dsimp only
  rw [if_pos hi]
  rfl

theorem alloc_preserves {a a' : DedupArena} {w x : UntypedValue} {c : ConstRef} {i : Nat}
    (h : a.alloc w = some (c, a')) (hx : a.values[i]? = some x) :
    a'.values[i]? = some x := by
  obtain ⟨-, -, -, hcase⟩ := alloc_some h
  cases hcase with
  | inl he => rw [he]; exact hx
  | inr he =>
    rw [he, List.getElem?_append_left (getElem?_lt hx)]
    exact hx

theorem alloc_const_some {p : ConstPool} {v : UntypedValue} {c : ConstRef} {p' : ConstPool}
    (h : p.alloc_const v = some (c, p')) : p.values.alloc v = some (c, p'.values) := by
  unfold ConstPool.alloc_const at h
  cases ha : p.values.alloc v with
  | none =>
    rw [ha] at h
    exact Option.noConfusion h
  | some r =>
    rw [ha] at h
    simp only [Option.map_some', Option.some.injEq, Prod.mk.injEq] at h
    obtain ⟨rfl, rfl⟩ := h
    rfl

/-- Characterization of `TableEntity.get` as a conditional. -/
theorem get_eq (t : TableEntity) (o : Nat) :
    t.get o =
      if h : o < t.len then .ok t.elements[o]
      else .error (.AccessOutOfBounds t.len o) := by
  unfold TableEntity.get
  by_cases h : o < t.len
  · rw [List.getElem?_eq_getElem h]
    simp [h]
  · rw [List.getElem?_eq_none (Nat.le_of_not_lt h)]
    simp [h]

/-- Characterization of `TableEntity.set` as a conditional. -/
theorem set_eq (t : TableEntity) (o : Nat) (v : Option FuncRef) :
    t.set o v =
      if o < t.len then .ok { t with elements := t.elements.set o v }
      else .error (.AccessOutOfBounds t.len o) := by
  unfold TableEntity.set
  by_cases h : o < t.len
  · rw [List.getElem?_eq_getElem h]
    simp [h]
  · rw [List.getElem?_eq_none (Nat.le_of_not_lt h)]
    simp [h]

theorem grow_ok_len {t t' : TableEntity} {g : Nat} (h : t.grow g = .ok t') :
    t'.len = t.len + g ∧ t'.limits = t.limits ∧
      t.len + g < TableEntity.effectiveMaximum t.limits := by
  rw [grow_eq] at h
  by_cases hc : t.len + g < usizeBound ∧ t.len + g < TableEntity.effectiveMaximum t.limits
  · rw [if_pos hc] at h
    cases h
    refine ⟨?_, rfl, hc.2⟩
    simp [TableEntity.len]
  · rw [if_neg hc] at h
    exact Except.noConfusion h

theorem set_ok_len {t t' : TableEntity} {o : Nat} {v : Option FuncRef}
    (h : t.set o v = .ok t') : t'.len = t.len ∧ t'.limits = t.limits := by
  rw [set_eq] at h
  by_cases hc : o < t.len
  · rw [if_pos hc] at h
    cases h
    exact ⟨List.length_set t.elements o v, rfl⟩
  · rw [if_neg hc] at h
    exact Except.noConfusion h

/-! ## Claim theorems -/

/-- Claim C1: for every table and growth amount `g`, `grow g` either
increases `len` by exactly `g` with every newly added slot `None` and
the limits untouched, or fails with `GrowOutOfBounds` carrying the
effective maximum, the pre-call length and `g`; failure occurs exactly
when the addition overflows the integer range or the resulting length
is not admissible (strictly below the effective maximum). The error
case returns without producing a table, so a partial increase is
impossible. -/
theorem grow_atomic_claim (t : TableEntity) (g : Nat) :
    (t.len + g < usizeBound ∧ t.len + g < TableEntity.effectiveMaximum t.limits →
      ∃ t', t.grow g = .ok t' ∧ t'.len = t.len + g ∧ t'.limits = t.limits ∧
        (∀ i, i < t.len → t'.elements[i]? = t.elements[i]?) ∧
        (∀ i, t.len ≤ i → i < t'.len → t'.elements[i]? = some none)) ∧
    (usizeBound ≤ t.len + g ∨ TableEntity.effectiveMaximum t.limits ≤ t.len + g →
      t.grow g =
        .error (.GrowOutOfBounds (TableEntity.effectiveMaximum t.limits) t.len g)) := by
  constructor
  · rintro ⟨h1, h2⟩
    refine ⟨{ t with elements := t.elements ++ List.replicate g none },
      by rw [grow_eq, if_pos ⟨h1, h2⟩], ?_, rfl, ?_, ?_⟩
    · simp [TableEntity.len]
    · intro i hi
      exact List.getElem?_append_left hi
    · intro i hge hlt
      have hlen : t.elements.length ≤ i := hge
      rw [List.getElem?_append_right hlen]
      have hlt' : i - t.elements.length < g := by
        have h' : i < (t.elements ++ List.replicate g none).length := hlt
        rw [List.length_append, List.length_replicate] at h'
        omega
      simp [List.getElem?_replicate, hlt']
  · intro h
    rw [grow_eq, if_neg (by rcases h with h | h <;> exact fun hc => by omega)]

/-- Concrete instantiation of `grow_atomic_claim`: growing a table of
initial length 2 and maximum 4 by 1 succeeds and yields length 3. -/
theorem grow_atomic_claim_witness :
    ∃ t', (TableEntity.new ⟨2, some 4⟩).grow 1 = .ok t' ∧ t'.len = 3 := by
  obtain ⟨t', h1, h2, -⟩ :=
    (grow_atomic_claim (TableEntity.new ⟨2, some 4⟩) 1).1 ⟨by decide, by decide⟩
  exact ⟨t', h1, h2⟩

/-- Claim C2 counterexample: growing a table with initial length 2 and
declared maximum 4 by exactly 2 (reaching the maximum, with no
overflow) is rejected by the code with `GrowOutOfBounds`, because the
admissibility test uses a strict less-than against the maximum instead
of the inclusive bound WebAssembly specifies and the method's own
documentation (errors only when grown beyond the maximum) implies. -/
theorem grow_to_exact_maximum_rejected :
    (TableEntity.new ⟨2, some 4⟩).len = 2 ∧
      (TableEntity.new ⟨2, some 4⟩).grow 2 =
        .error (.GrowOutOfBounds 4 2 2) :=
  ⟨rfl, rfl⟩

/-- Claim C3: `get o` succeeds exactly when `o < len`, `set o v`
succeeds exactly when `o < len`, a successful `set o v` makes a
subsequent `get o` return exactly `v`, and both failures carry
`AccessOutOfBounds` with the table's length and the offending offset;
the failing `set` returns before touching any slot. -/
theorem get_set_bounds_claim (t : TableEntity) (o : Nat) (v : Option FuncRef) :
    (o < t.len → ∃ r, t.get o = .ok r) ∧
    (t.len ≤ o → t.get o = .error (.AccessOutOfBounds t.len o)) ∧
    (o < t.len → ∃ t', t.set o v = .ok t' ∧ t'.get o = .ok v) ∧
    (t.len ≤ o → t.set o v = .error (.AccessOutOfBounds t.len o)) := by
  refine ⟨?_, ?_, ?_, ?_⟩
  · intro h
    exact ⟨_, by rw [get_eq, dif_pos h]⟩
  · intro h
    rw [get_eq, dif_neg (Nat.not_lt.mpr h)]
  · intro h
    refine ⟨_, by rw [set_eq, if_pos h], ?_⟩
    unfold TableEntity.get
    rw [List.getElem?_set_eq_of_lt v h]
  · intro h
    rw [set_eq, if_neg (Nat.not_lt.mpr h)]

/-- Concrete instantiation of `get_set_bounds_claim`: setting slot 1 of
a length-3 table then reading it back returns the written value, and
reading offset 5 of a length-3 table reports `AccessOutOfBounds 3 5`. -/
theorem get_set_bounds_claim_witness :
    (∃ t', (TableEntity.new ⟨3, none⟩).set 1 (some ⟨7⟩) = .ok t' ∧
      t'.get 1 = .ok (some ⟨7⟩)) ∧
    (TableEntity.new ⟨3, none⟩).get 5 = .error (.AccessOutOfBounds 3 5) :=
  ⟨(get_set_bounds_claim (TableEntity.new ⟨3, none⟩) 1 (some ⟨7⟩)).2.2.1 (by decide),
    (get_set_bounds_claim (TableEntity.new ⟨3, none⟩) 5 none).2.1 (by decide)⟩

/-- Claim C7: `ConstRef.from_usize` hits its fatal assertion exactly
when the value is at or above `i32::MAX`; below the ceiling it succeeds
and round-trips through `into_usize`, and every handle minted by
`ConstPool.alloc_const` stays strictly below `i32::MAX`. -/
theorem from_usize_ceiling_claim (v : Nat) :
    (v < i32Max → ∃ c, ConstRef.from_usize v = some c ∧ c.into_usize = v) ∧
    (i32Max ≤ v → ConstRef.from_usize v = none) ∧
    (∀ (p : ConstPool) (w : UntypedValue) (c : ConstRef) (p' : ConstPool),
      p.alloc_const w = some (c, p') → c.into_usize < i32Max) := by
  refine ⟨?_, ?_, ?_⟩
  · intro h
    exact ⟨⟨v⟩, by rw [ConstRef.from_usize, if_pos h], rfl⟩
  · intro h
    rw [ConstRef.from_usize, if_neg (Nat.not_lt.mpr h)]
  · intro p w c p' h
    exact (alloc_some (alloc_const_some h)).1

/-- Concrete instantiation of `from_usize_ceiling_claim`: position 3 is
representable and round-trips, while `i32::MAX` itself is rejected. -/
theorem from_usize_ceiling_claim_witness :
    (∃ c, ConstRef.from_usize 3 = some c ∧ c.into_usize = 3) ∧
      ConstRef.from_usize i32Max = none :=
  ⟨(from_usize_ceiling_claim 3).1 (by decide),
    (from_usize_ceiling_claim i32Max).2.1 (Nat.le_refl _)⟩

/-- Claim C8: `TableEntity.new limits` always produces a table (the
constructor is total, with no failure mode) whose length is exactly
`limits.initial`, whose every slot below `limits.initial` reads back as
`None`, and whose stored limits are exactly `limits`; no successful
`grow` or `set` ever changes the stored limits (`get` does not return a
table at all). -/
theorem new_table_claim (limits : ResizableLimits) :
    (TableEntity.new limits).len = limits.initial ∧
    (TableEntity.new limits).limits = limits ∧
    (∀ o, o < limits.initial → (TableEntity.new limits).get o = .ok none) ∧
    (∀ (t t' : TableEntity) (g : Nat), t.grow g = .ok t' → t'.limits = t.limits) ∧
    (∀ (t t' : TableEntity) (o : Nat) (v : Option FuncRef),
      t.set o v = .ok t' → t'.limits = t.limits) := by
  refine ⟨?_, rfl, ?_, ?_, ?_⟩
  · simp [TableEntity.new, TableEntity.len]
  · intro o ho
    have hlen : o < (TableEntity.new limits).len := by
      simpa [TableEntity.new, TableEntity.len] using ho
    rw [get_eq, dif_pos hlen]
    simp [TableEntity.new]
  · intro t t' g h
    exact (grow_ok_len h).2.1
  · intro t t' o v h
    exact (set_ok_len h).2

/-- Concrete instantiation of `new_table_claim`: a fresh table with
initial length 2 has length 2 and slot 1 reads back as `None`. -/
theorem new_table_claim_witness :
    (TableEntity.new ⟨2, some 4⟩).len = 2 ∧
      (TableEntity.new ⟨2, some 4⟩).get 1 = .ok none :=
  ⟨(new_table_claim ⟨2, some 4⟩).1, (new_table_claim ⟨2, some 4⟩).2.2.1 1 (by decide)⟩

/-- Claim C9: growing by zero is not always a no-op: when the current
length is at or above the effective maximum, `grow 0` fails with
`GrowOutOfBounds` even though nothing would change; it succeeds
(returning the table unchanged) exactly when the current length is
strictly below the effective maximum (and representable, so that the
checked addition succeeds). -/
theorem grow_zero_claim (t : TableEntity) :
    (TableEntity.effectiveMaximum t.limits ≤ t.len →
      t.grow 0 =
        .error (.GrowOutOfBounds (TableEntity.effectiveMaximum t.limits) t.len 0)) ∧
    (t.len < TableEntity.effectiveMaximum t.limits → t.len < usizeBound →
      t.grow 0 = .ok t) := by
  constructor
  · intro h
    rw [grow_eq, if_neg (fun hc => by omega)]
  · intro h1 h2
    rw [grow_eq, if_pos ⟨by omega, by omega⟩]
    simp

/-- Concrete instantiation of `grow_zero_claim`: a table created at its
declared maximum 3 rejects even `grow 0`, while a table of length 2
with maximum 4 accepts `grow 0` unchanged. -/
theorem grow_zero_claim_witness :
    (TableEntity.new ⟨3, some 3⟩).grow 0 =
        .error (.GrowOutOfBounds 3 3 0) ∧
      (TableEntity.new ⟨2, some 4⟩).grow 0 = .ok (TableEntity.new ⟨2, some 4⟩) :=
  ⟨(grow_zero_claim (TableEntity.new ⟨3, some 3⟩)).1 (by decide),
    (grow_zero_claim (TableEntity.new ⟨2, some 4⟩)).2 (by decide) (by decide)⟩

theorem applyTableOp_invariant (t : TableEntity) (op : TableOp)
    (h : t.len ≤ TableEntity.effectiveMaximum t.limits) :
    (applyTableOp t op).len ≤ TableEntity.effectiveMaximum t.limits ∧
      (applyTableOp t op).limits = t.limits := by
  cases op with
  | grow g =>
    simp only [applyTableOp]
    split
    · rename_i t' hg
      obtain ⟨hlen, hlim, hlt⟩ := grow_ok_len hg
      refine ⟨?_, hlim⟩
      rw [hlen]
      exact Nat.le_of_lt hlt
    · exact ⟨h, rfl⟩
  | set o v =>
    simp only [applyTableOp]
    split
    · rename_i t' hs
      obtain ⟨hlen, hlim⟩ := set_ok_len hs
      exact ⟨by rw [hlen]; exact h, hlim⟩
    · exact ⟨h, rfl⟩
  | get o => exact ⟨h, rfl⟩

theorem runTableOps_invariant (t : TableEntity) (ops : List TableOp)
    (h : t.len ≤ TableEntity.effectiveMaximum t.limits) :
    (runTableOps t ops).len ≤ TableEntity.effectiveMaximum t.limits ∧
      (runTableOps t ops).limits = t.limits := by
  induction ops generalizing t with
  | nil => exact ⟨h, rfl⟩
  | cons op ops ih =>
    obtain ⟨h1, h2⟩ := applyTableOp_invariant t op h
    obtain ⟨ih1, ih2⟩ := ih (applyTableOp t op) (by rw [h2]; exact h1)
    have hstep : runTableOps t (op :: ops) = runTableOps (applyTableOp t op) ops := rfl
    rw [hstep]
    exact ⟨by rw [← h2]; exact ih1, by rw [ih2, h2]⟩

/-- Claim C10: `TableEntity.new` performs no validation — even limits
whose declared maximum is below the initial length yield a table of
length `initial` — so the bound on lengths holds only under the
decoder's precondition that the initial length is admissible; under
that precondition (initial at most the effective maximum, which for a
declared maximum `m` is `initial ≤ m`) every state reachable through
`grow`, `set` and `get` keeps its length at most the effective
maximum. -/
theorem new_no_validation_invariant_claim (limits : ResizableLimits)
    (ops : List TableOp) :
    ((∃ m, limits.maximum = some m ∧ m < limits.initial) →
      (TableEntity.new limits).len = limits.initial) ∧
    (limits.initial ≤ TableEntity.effectiveMaximum limits →
      (runTableOps (TableEntity.new limits) ops).len ≤
        TableEntity.effectiveMaximum limits) := by
  constructor
  · intro _
    simp [TableEntity.new, TableEntity.len]
  · intro h
    have hnew : (TableEntity.new limits).len ≤
        TableEntity.effectiveMaximum (TableEntity.new limits).limits := by
      simpa [TableEntity.new, TableEntity.len] using h
    exact (runTableOps_invariant (TableEntity.new limits) ops hnew).1

/-- Concrete instantiation of `new_no_validation_invariant_claim`:
limits with initial 5 and maximum 3 still produce a five-slot table,
and a valid table of initial 2 and maximum 4 stays within bounds after
a growth attempt. -/
theorem new_no_validation_invariant_claim_witness :
    (TableEntity.new ⟨5, some 3⟩).len = 5 ∧
      (runTableOps (TableEntity.new ⟨2, some 4⟩) [TableOp.grow 1]).len ≤
        TableEntity.effectiveMaximum ⟨2, some 4⟩ :=
  ⟨(new_no_validation_invariant_claim ⟨5, some 3⟩ []).1 ⟨3, rfl, by decide⟩,
    (new_no_validation_invariant_claim ⟨2, some 4⟩ [TableOp.grow 1]).2 (by decide)⟩

theorem allocAll_preserves {p p' : ConstPool} {vs : List UntypedValue} {i : Nat}
    {x : UntypedValue} (h : p.allocAll vs = some p')
    (hx : p.values.values[i]? = some x) : p'.values.values[i]? = some x := by
  induction vs generalizing p with
  | nil =>
    unfold ConstPool.allocAll at h
    cases h
    exact hx
  | cons v vs ih =>
    unfold ConstPool.allocAll at h
    split at h
    · rename_i r ha
      have hx1 : r.2.values.values[i]? = some x := by
        have ha' : p.alloc_const v = some (r.1, r.2) := by rw [ha]
        exact alloc_preserves (alloc_const_some ha') hx
      exact ih h hx1
    · exact Option.noConfusion h

/-- Claim C4: allocating a value already present in the pool returns
the very handle the first allocation returned, together with the
unchanged pool (so `len` is unchanged and nothing was inserted), while
allocating two distinct values in sequence yields distinct handles. -/
theorem alloc_const_dedup_claim (p : ConstPool) (v1 v2 : UntypedValue) :
    (∀ c1 p1, p.alloc_const v1 = some (c1, p1) → v1 = v2 →
      p1.alloc_const v2 = some (c1, p1)) ∧
    (∀ c1 p1 c2 p2, p.alloc_const v1 = some (c1, p1) →
      p1.alloc_const v2 = some (c2, p2) → v1 ≠ v2 → c1 ≠ c2) := by
  constructor
  · rintro c1 p1 h rfl
    have hi := alloc_idem (alloc_const_some h)
    unfold ConstPool.alloc_const
    rw [hi]
    rfl
  · intro c1 p1 c2 p2 h1 h2 hne heq
    obtain ⟨-, -, hv1, -⟩ := alloc_some (alloc_const_some h1)
    have hpres : p2.values.values[c1.val]? = some v1 :=
      alloc_preserves (alloc_const_some h2) hv1
    obtain ⟨-, -, hv2, -⟩ := alloc_some (alloc_const_some h2)
    subst heq
    exact hne (Option.some.inj (hpres.symm.trans hv2))

/-- Concrete instantiation of `alloc_const_dedup_claim`: re-allocating
the value 5 in a pool already holding it returns handle 0 and the same
pool, and the handles of the distinct values 5 and 6 differ. -/
theorem alloc_const_dedup_claim_witness :
    ConstPool.alloc_const ⟨⟨[⟨5⟩]⟩⟩ ⟨5⟩ = some (⟨0⟩, ⟨⟨[⟨5⟩]⟩⟩) ∧
      (⟨0⟩ : ConstRef) ≠ (⟨1⟩ : ConstRef) :=
  ⟨(alloc_const_dedup_claim ⟨⟨[]⟩⟩ ⟨5⟩ ⟨5⟩).1 ⟨0⟩ ⟨⟨[⟨5⟩]⟩⟩ rfl rfl,
    (alloc_const_dedup_claim ⟨⟨[]⟩⟩ ⟨5⟩ ⟨6⟩).2 ⟨0⟩ ⟨⟨[⟨5⟩]⟩⟩ ⟨1⟩ ⟨⟨[⟨5⟩, ⟨6⟩]⟩⟩
      rfl rfl (by decide)⟩

/-- Claim C5: a handle returned by `alloc_const` resolves to the
allocated value, this stays true after any further sequence of
allocations (positions are never reused for a different value), and
resolving a handle whose position is at or beyond the pool's current
length yields `none`. -/
theorem resolve_round_trip_claim (p : ConstPool) (v : UntypedValue) :
    (∀ c p1, p.alloc_const v = some (c, p1) → p1.resolve c = some v) ∧
    (∀ c p1 vs p2, p.alloc_const v = some (c, p1) →
      p1.allocAll vs = some p2 → p2.resolve c = some v) ∧
    (∀ c : ConstRef, p.len ≤ c.into_usize → p.resolve c = none) := by
  refine ⟨?_, ?_, ?_⟩
  · intro c p1 h
    obtain ⟨-, -, hv, -⟩ := alloc_some (alloc_const_some h)
    exact hv
  · intro c p1 vs p2 h hall
    obtain ⟨-, -, hv, -⟩ := alloc_some (alloc_const_some h)
    exact allocAll_preserves hall hv
  · intro c h
    unfold ConstPool.resolve DedupArena.get
    exact List.getElem?_eq_none h

/-- Concrete instantiation of `resolve_round_trip_claim`: the handle of
value 5 still resolves to 5 after a further allocation of 6, and
handle 1 of a one-element pool resolves to nothing. -/
theorem resolve_round_trip_claim_witness :
    ConstPool.resolve ⟨⟨[⟨5⟩, ⟨6⟩]⟩⟩ ⟨0⟩ = some ⟨5⟩ ∧
      ConstPool.resolve ⟨⟨[⟨5⟩]⟩⟩ ⟨1⟩ = none :=
  ⟨(resolve_round_trip_claim ⟨⟨[]⟩⟩ ⟨5⟩).2.1 ⟨0⟩ ⟨⟨[⟨5⟩]⟩⟩ [⟨6⟩] ⟨⟨[⟨5⟩, ⟨6⟩]⟩⟩
      rfl rfl,
    (resolve_round_trip_claim ⟨⟨[⟨5⟩]⟩⟩ ⟨9⟩).2.2 ⟨1⟩ (by decide)⟩

/-- Claim C6: `push_func_type` returns the number of signatures pushed
before the call (the accumulated count, representable as a `u32`) and
appends exactly one signature; when the count exceeds the 32-bit range
the call fails fatally (modelled as `none`) instead of returning a
recoverable error; on a fresh builder three successive calls return
0, 1 and 2. -/
theorem push_func_type_sequential_claim :
    (∀ (b : ModuleBuilder) (ft : FuncType), b.func_types.length ≤ u32Max →
      b.push_func_type ft =
        some (b.func_types.length, { func_types := b.func_types ++ [ft] })) ∧
    (∀ (b : ModuleBuilder) (ft : FuncType), u32Max < b.func_types.length →
      b.push_func_type ft = none) ∧
    (∀ f1 f2 f3 : FuncType,
      ModuleBuilder.default.push_func_type f1 = some (0, ⟨[f1]⟩) ∧
      ModuleBuilder.push_func_type ⟨[f1]⟩ f2 = some (1, ⟨[f1, f2]⟩) ∧
      ModuleBuilder.push_func_type ⟨[f1, f2]⟩ f3 = some (2, ⟨[f1, f2, f3]⟩)) := by
  refine ⟨?_, ?_, ?_⟩
  · intro b ft h
    rw [ModuleBuilder.push_func_type, if_pos h]
  · intro b ft h
    rw [ModuleBuilder.push_func_type, if_neg (Nat.not_le.mpr h)]
  · intro f1 f2 f3
    refine ⟨?_, ?_, ?_⟩
    · rw [ModuleBuilder.push_func_type, if_pos (by decide)]
      rfl
    · rw [ModuleBuilder.push_func_type, if_pos (by norm_num [u32Max])]
      rfl
    · rw [ModuleBuilder.push_func_type, if_pos (by norm_num [u32Max])]
      rfl

/-- Concrete instantiation of `push_func_type_sequential_claim`: a
builder holding one signature hands out index 1 for the next push. -/
theorem push_func_type_sequential_claim_witness :
    ModuleBuilder.push_func_type ⟨[⟨0⟩]⟩ ⟨1⟩ = some (1, ⟨[⟨0⟩, ⟨1⟩]⟩) :=
  push_func_type_sequential_claim.1 ⟨[⟨0⟩]⟩ ⟨1⟩ (by decide)
